import Mathlib

/-!
Verification of the ytbv terminal UI coordination engine against its
natural-language specification.  The definitions below are a shallow
embedding of `src/main.rs`: machine integers become `Nat` with explicit
saturation / truncation where the Rust code can overflow or cast, the
mutable `App` struct becomes a record threaded through pure transition
functions, thread spawns become explicit task lists, and the worker
message channel becomes a system-level step relation with an in-flight
task ledger.
-/

namespace Ytbv

/-! ## Layout fitter (`fit_dimensions_cells`, main.rs lines 618-650)

Rust arithmetic: `img_width`/`img_height` are `u32`, the bounds are `u16`
widened to `u32`; `saturating_mul` clamps at `u32::MAX`; the final
results are cast back `as u16` (truncating). -/

def u32MAX : Nat := 4294967295

/-- `u32::saturating_mul` on numbers already in `u32` range. -/
def satMul32 (a b : Nat) : Nat := min (a * b) u32MAX

/-- The `as u16` cast (truncation mod 2^16). -/
def u16cast (n : Nat) : Nat := n % 65536

/-- Shallow embedding of `fit_dimensions_cells`.  The Rust locals
`bound_height_px = bound_height * 2`, `ratio = img_width.saturating_mul(bound_height_px)`,
`nratio = bound_width.saturating_mul(img_height)` and `intermediate` are inlined. -/
def fitDimensionsCells (imgWidth imgHeight boundWidth boundHeight : Nat) : Nat × Nat :=
  if imgWidth = 0 ∨ imgHeight = 0 ∨ boundWidth = 0 ∨ boundHeight = 0 then (0, 0)
  else if imgWidth ≤ boundWidth ∧ imgHeight ≤ boundHeight * 2 then
    (u16cast imgWidth, u16cast (max 1 (imgHeight / 2 + imgHeight % 2)))
  else if satMul32 boundWidth imgHeight ≤ satMul32 imgWidth (boundHeight * 2) then
    (boundWidth, u16cast (max 1 (satMul32 imgHeight boundWidth / imgWidth / 2)))
  else
    (u16cast (satMul32 imgWidth (boundHeight * 2) / imgHeight),
     u16cast (max 1 (boundHeight * 2 / 2)))

example : fitDimensionsCells 10 10 40 20 = (10, 5) := by decide
example : fitDimensionsCells 1920 1080 40 20 = (40, 11) := by decide
example : fitDimensionsCells 1 10 5 2 = (0, 2) := by decide

lemma satMul32_comm (a b : Nat) : satMul32 a b = satMul32 b a := by
  simp [satMul32, Nat.mul_comm]

lemma div_le_of_le_mul32 {a b c : Nat} (hc : 0 < c) (h : a ≤ c * b) : a / c ≤ b :=
  calc a / c ≤ (c * b) / c := Nat.div_le_div_right h
  _ = b := Nat.mul_div_cancel_left b hc

/-- Bounds for all four branches of `fitDimensionsCells` with positive,
in-range inputs: the width never exceeds the bound, and the height is
between 1 and the bound (also when the saturating products clamp). -/
lemma fit_bounds_pos (iw ih bw bh : Nat)
    (hiw : 0 < iw) (hih : 0 < ih) (hbw : 0 < bw) (hbh : 0 < bh)
    (hbw16 : bw < 65536) (hbh16 : bh < 65536) :
    (fitDimensionsCells iw ih bw bh).1 ≤ bw ∧
    1 ≤ (fitDimensionsCells iw ih bw bh).2 ∧
    (fitDimensionsCells iw ih bw bh).2 ≤ bh := by
  rw [fitDimensionsCells, if_neg (by omega)]
  split
  case isTrue hfit =>
    simp only [u16cast]
    omega
  case isFalse hfit =>
    split
    case isTrue huse =>
      have hx : satMul32 ih bw / iw ≤ bh * 2 := by
        apply div_le_of_le_mul32 hiw
        calc satMul32 ih bw = satMul32 bw ih := satMul32_comm ih bw
        _ ≤ satMul32 iw (bh * 2) := huse
        _ ≤ iw * (bh * 2) := min_le_left _ _
      generalize satMul32 ih bw / iw = x at hx ⊢
      simp only [u16cast]
      omega
    case isFalse huse =>
      have hx : satMul32 iw (bh * 2) / ih < bw := by
        rw [Nat.div_lt_iff_lt_mul hih]
        calc satMul32 iw (bh * 2) < satMul32 bw ih := by omega
        _ ≤ bw * ih := min_le_left _ _
      generalize satMul32 iw (bh * 2) / ih = x at hx ⊢
      simp only [u16cast]
      omega

/-- C3 (corrected): for image pixel size and cell bound all strictly
positive (and in Rust integer range), the fitter result satisfies
`w ≤ bw` and `1 ≤ h ≤ bh` — but `w` may be 0 (the floor of 1 is not
applied to the width computed in the fit-by-height branch) — and the
result is `(0, 0)` exactly when one of the four input dimensions is 0. -/
theorem fit_dimensions_bounds (iw ih bw bh : Nat)
    (hbw16 : bw < 65536) (hbh16 : bh < 65536) :
    ((0 < iw ∧ 0 < ih ∧ 0 < bw ∧ 0 < bh) →
      (fitDimensionsCells iw ih bw bh).1 ≤ bw ∧
      1 ≤ (fitDimensionsCells iw ih bw bh).2 ∧
      (fitDimensionsCells iw ih bw bh).2 ≤ bh) ∧
    (fitDimensionsCells iw ih bw bh = (0, 0) ↔
      (iw = 0 ∨ ih = 0 ∨ bw = 0 ∨ bh = 0)) := by
  constructor
  · rintro ⟨h1, h2, h3, h4⟩
    exact fit_bounds_pos iw ih bw bh h1 h2 h3 h4 hbw16 hbh16
  · constructor
    · intro heq
      by_contra hpos
      push_neg at hpos
      obtain ⟨-, hh, -⟩ := fit_bounds_pos iw ih bw bh (by omega) (by omega) (by omega)
        (by omega) hbw16 hbh16
      rw [heq] at hh
      exact absurd hh (by norm_num)
    · intro h0
      rw [fitDimensionsCells, if_pos h0]

/-- C3 counterexample: image 1×10 in bound 5×2 has every input dimension
strictly positive, yet the fitter returns width 0 (the code takes the
fit-by-height branch and computes `1*4/10 = 0` with no floor of 1),
contradicting the claimed `1 ≤ w`. -/
theorem fit_dimensions_width_zero :
    fitDimensionsCells 1 10 5 2 = (0, 2) ∧ (fitDimensionsCells 1 10 5 2).1 < 1 := by
  decide

/-- Witness for C3: the amended bounds evaluated at image 1920×1080 in
bound 40×20. -/
theorem fit_dimensions_bounds_witness :
    ((0 < 1920 ∧ 0 < 1080 ∧ 0 < 40 ∧ 0 < 20) →
      (fitDimensionsCells 1920 1080 40 20).1 ≤ 40 ∧
      1 ≤ (fitDimensionsCells 1920 1080 40 20).2 ∧
      (fitDimensionsCells 1920 1080 40 20).2 ≤ 20) ∧
    (fitDimensionsCells 1920 1080 40 20 = (0, 0) ↔
      (1920 = 0 ∨ 1080 = 0 ∨ 40 = 0 ∨ 20 = 0)) :=
  fit_dimensions_bounds 1920 1080 40 20 (by norm_num) (by norm_num)

/-- C4 (corrected): the fitter follows the specified algorithm on the
two worked examples; when the image fits at 1:1 it returns the native
size with height rounded up; and in the scaled-down case, provided the
two cross products do not exceed `u32::MAX` (the code compares them with
`saturating_mul`, so beyond that point the comparison can disagree with
the exact products), fit-by-width is chosen exactly when
`bw*ih ≤ iw*(2*bh)`, the fit-by-width height is the floor-scaled value
with a floor of 1, and the fit-by-height width is the floor-scaled value
with NO floor of 1. -/
theorem fit_dimensions_algorithm :
    (fitDimensionsCells 10 10 40 20 = (10, 5)) ∧
    ((fitDimensionsCells 1920 1080 40 20).1 = 40) ∧
    (∀ iw ih bw bh : Nat, 0 < iw → 0 < ih → bw < 65536 → bh < 65536 →
      iw ≤ bw → ih ≤ bh * 2 →
      fitDimensionsCells iw ih bw bh = (iw, ih / 2 + ih % 2)) ∧
    (∀ iw ih bw bh : Nat, 0 < iw → 0 < ih → 0 < bw → 0 < bh →
      bw < 65536 → bh < 65536 → ¬(iw ≤ bw ∧ ih ≤ bh * 2) →
      bw * ih ≤ u32MAX → iw * (bh * 2) ≤ u32MAX →
      (bw * ih ≤ iw * (bh * 2) →
        fitDimensionsCells iw ih bw bh = (bw, max 1 (ih * bw / iw / 2))) ∧
      (iw * (bh * 2) < bw * ih →
        fitDimensionsCells iw ih bw bh = (iw * (bh * 2) / ih, bh))) := by
  refine ⟨by decide, by decide, ?_, ?_⟩
  · intro iw ih bw bh hiw hih hbw16 hbh16 hw hh
    rw [fitDimensionsCells, if_neg (by omega), if_pos ⟨hw, hh⟩]
    have h1 : u16cast iw = iw := by
      simp only [u16cast]
      omega
    have h2 : u16cast (max 1 (ih / 2 + ih % 2)) = ih / 2 + ih % 2 := by
      simp only [u16cast]
      omega
    rw [h1, h2]
  · intro iw ih bw bh hiw hih hbw hbh hbw16 hbh16 hnofit hsat1 hsat2
    have hs1 : satMul32 bw ih = bw * ih := by
      simp [satMul32, Nat.min_eq_left hsat1]
    have hs2 : satMul32 iw (bh * 2) = iw * (bh * 2) := by
      simp [satMul32, Nat.min_eq_left hsat2]
    constructor
    · intro hle
      rw [fitDimensionsCells, if_neg (by omega), if_neg hnofit,
        if_pos (by rw [hs1, hs2]; exact hle)]
      have hs3 : satMul32 ih bw = ih * bw := by
        rw [satMul32_comm, hs1, Nat.mul_comm]
      rw [hs3]
      have hx : ih * bw / iw ≤ bh * 2 := by
        apply div_le_of_le_mul32 hiw
        calc ih * bw = bw * ih := Nat.mul_comm ih bw
        _ ≤ iw * (bh * 2) := hle
      have hcast : u16cast (max 1 (ih * bw / iw / 2)) = max 1 (ih * bw / iw / 2) := by
        generalize ih * bw / iw = x at hx ⊢
        simp only [u16cast]
        omega
      rw [hcast]
    · intro hlt
      rw [fitDimensionsCells, if_neg (by omega), if_neg hnofit,
        if_neg (by rw [hs1, hs2]; omega), hs2]
      have hx : iw * (bh * 2) / ih < bw := by
        rw [Nat.div_lt_iff_lt_mul hih]
        exact hlt
      have h1 : u16cast (iw * (bh * 2) / ih) = iw * (bh * 2) / ih := by
        generalize iw * (bh * 2) / ih = x at hx ⊢
        simp only [u16cast]
        omega
      have h2 : u16cast (max 1 (bh * 2 / 2)) = bh := by
        simp only [u16cast]
        omega
      rw [h1, h2]

/-- C4 counterexample: at image 1×10 in bound 5×2 the fit-by-height
branch is chosen (`5*10 > 1*4`); the claimed algorithm computes the
other dimension "rounded down with a floor of 1", which would give
`(1, 2)`, but the code returns `(0, 2)` — no floor of 1 is applied to
the computed width. -/
theorem fit_dimensions_no_width_floor :
    fitDimensionsCells 1 10 5 2 = (0, 2) ∧ fitDimensionsCells 1 10 5 2 ≠ (1, 2) := by
  decide

/-- Witness for C4: the native-fit branch applied at image 12×8 in bound
40×20 yields `(12, 4)`. -/
theorem fit_dimensions_algorithm_witness :
    fitDimensionsCells 12 8 40 20 = (12, 8 / 2 + 8 % 2) :=
  fit_dimensions_algorithm.2.2.1 12 8 40 20 (by norm_num) (by norm_num) (by norm_num)
    (by norm_num) (by norm_num) (by norm_num)

/-! ## Rust `String` byte-index operations

The query buffer is a Rust `String` (UTF-8 bytes).  `handle_key` keeps
`app.cursor` as a count of typed characters but passes it to
`String::insert` / `String::remove`, which take a BYTE index and panic
when the index is not a character boundary (or out of range).  We model
the buffer as its character list and the byte indexing explicitly;
`none` models the panic. -/

/-- Number of UTF-8 bytes of a character. -/
def charUtf8Len (c : Char) : Nat :=
  if c.toNat < 128 then 1
  else if c.toNat < 2048 then 2
  else if c.toNat < 65536 then 3
  else 4

/-- `String::insert(idx, c)`: insert at byte index `idx`; `none` models
the Rust panic when `idx` is out of range or not a char boundary. -/
def stringInsert : List Char → Nat → Char → Option (List Char)
  | cs, 0, c => some (c :: cs)
  | [], _, _ => none
  | c0 :: rest, i, c =>
      if charUtf8Len c0 ≤ i then
        (stringInsert rest (i - charUtf8Len c0) c).map (fun l => c0 :: l)
      else none

/-- `String::remove(idx)`: remove the character starting at byte index
`idx`; `none` models the Rust panic (out of range or not a boundary). -/
def stringRemove : List Char → Nat → Option (List Char)
  | [], _ => none
  | _ :: rest, 0 => some rest
  | c0 :: rest, i =>
      if charUtf8Len c0 ≤ i then
        (stringRemove rest (i - charUtf8Len c0)).map (fun l => c0 :: l)
      else none

/-- `str::trim` (whitespace at both ends removed). -/
def trimChars (cs : List Char) : List Char :=
  ((cs.dropWhile Char.isWhitespace).reverse.dropWhile Char.isWhitespace).reverse

example : stringInsert ['a', 'b'] 1 'c' = some ['a', 'c', 'b'] := by decide
example : stringInsert ['é'] 1 'x' = none := by decide
example : stringRemove ['a', 'b'] 1 = some ['a'] := by decide

/-! ## Data model (`Video`, `App`, messages, tasks)

`Video` mirrors the Rust struct; the collaborator-owned value types
(`PathBuf`, `OffsetDateTime`) are modelled as `String` / `Int`.
`App` drops the channel handles (`rx`/`tx`), which become the explicit
task lists and the system-level ledger below. -/

structure Video where
  title : String
  url : String
  channel : Option String
  duration : Option Nat
  view_count : Option Nat
  publish_date : Option Int
  publish_date_txt : Option String
  thumbnail_url : Option String
  thumbnail_path : Option String
  thumbnail_size : Option (Nat × Nat)
  thumbnail_loading : Bool
  deriving DecidableEq, Repr

/-- A terminal cell rectangle (`ratatui::layout::Rect`). -/
structure Rect where
  x : Nat
  y : Nat
  width : Nat
  height : Nat
  deriving DecidableEq, Repr

/-- Fingerprint of the last emitted thumbnail (`ThumbRender`). -/
structure ThumbRender where
  path : String
  area : Rect
  deriving DecidableEq, Repr

inductive Focus
  | search
  | results
  deriving DecidableEq, Repr

/-- The `App` state bag (channel endpoints omitted). -/
structure App where
  query : List Char
  cursor : Nat
  results : List Video
  selected : Nat
  status : String
  searching : Bool
  focus : Focus
  thumb_area : Option Rect
  last_thumb : Option ThumbRender
  deriving DecidableEq, Repr

inductive KeyCode
  | char (c : Char)
  | enter
  | up
  | down
  | backspace
  | left
  | right
  | other
  deriving DecidableEq, Repr

/-- A background unit of work spawned with `thread::spawn`. -/
inductive Task
  | search (query : List Char)
  | thumb (index : Nat) (url : String)
  deriving DecidableEq, Repr

/-- Messages posted back on the mpsc channel (`AppMsg`).  The thumbnail
payload carries the cache path. -/
inductive AppMsg
  | search (result : Except String (List Video))
  | thumbnail (index : Nat) (result : Except String String)

/-- `queue_thumbnail`: spawn a fetch for `index` only when that result
has no cached path, is not already loading, and has a thumbnail URL;
marks it loading.  Returns the updated app and the spawned tasks. -/
def queueThumbnail (app : App) (index : Nat) : App × List Task :=
  match app.results.get? index with
  | none => (app, [])
  | some v =>
      if v.thumbnail_path = none ∧ v.thumbnail_loading = false then
        match v.thumbnail_url with
        | some url =>
            ({ app with
                results := app.results.set index { v with thumbnail_loading := true } },
             [Task.thumb index url])
        | none => (app, [])
      else (app, [])

/-- `handle_key`: returns `none` on a (byte-index) panic, otherwise
`some (app, quit, spawned tasks)`.  `play_video` is a fire-and-forget
external launch and contributes no task. -/
def handleKey (app : App) (key : KeyCode) : Option (App × Bool × List Task) :=
  match key with
  | .char c =>
      if c = 'q' then some (app, true, [])
      else if app.focus = Focus.search then
        match stringInsert app.query app.cursor c with
        | some q => some ({ app with query := q, cursor := app.cursor + 1 }, false, [])
        | none => none
      else some (app, false, [])
  | .enter =>
      match app.focus with
      | .search =>
          if trimChars app.query ≠ [] ∧ app.searching = false then
            some ({ app with
                      searching := true,
                      status := "Searching for " ++ String.mk (trimChars app.query) ++ " ..." },
                  false, [Task.search (trimChars app.query)])
          else some (app, false, [])
      | .results =>
          match app.results.get? app.selected with
          | some v => some ({ app with status := "Playing: " ++ v.title }, false, [])
          | none => some (app, false, [])
  | .up =>
      if app.focus = Focus.results then
        if 0 < app.selected then
          let a2 := { app with selected := app.selected - 1 }
          let qr := queueThumbnail a2 a2.selected
          some (qr.1, false, qr.2)
        else some ({ app with focus := Focus.search }, false, [])
      else some (app, false, [])
  | .down =>
      match app.focus with
      | .search =>
          if app.results ≠ [] then
            let a2 := { app with focus := Focus.results }
            let qr := queueThumbnail a2 a2.selected
            some (qr.1, false, qr.2)
          else some (app, false, [])
      | .results =>
          if app.selected + 1 < app.results.length then
            let a2 := { app with selected := app.selected + 1 }
            let qr := queueThumbnail a2 a2.selected
            some (qr.1, false, qr.2)
          else some (app, false, [])
  | .backspace =>
      if app.focus = Focus.search then
        if 0 < app.cursor then
          match stringRemove app.query (app.cursor - 1) with
          | some q => some ({ app with cursor := app.cursor - 1, query := q }, false, [])
          | none => none
        else some (app, false, [])
      else some (app, false, [])
  | .left =>
      if app.focus = Focus.search ∧ 0 < app.cursor then
        some ({ app with cursor := app.cursor - 1 }, false, [])
      else some (app, false, [])
  | .right =>
      if app.focus = Focus.search ∧ app.cursor < app.query.length then
        some ({ app with cursor := app.cursor + 1 }, false, [])
      else some (app, false, [])
  | .other => some (app, false, [])

/-- The message-drain body of `main`'s loop for one message.
`sizeOf` stands for `thumbnail_size_from_path` (a read of the file the
worker just wrote, so a pure oracle of the path here). -/
def handleMsg (sizeOfPath : String → Option (Nat × Nat)) (app : App) (msg : AppMsg) :
    App × List Task :=
  match msg with
  | .search r =>
      match r with
      | .ok results =>
          let a2 := { app with searching := false, results := results, selected := 0 }
          if a2.results ≠ [] then
            let a3 := { a2 with focus := Focus.results }
            let qr := queueThumbnail a3 a3.selected
            ({ qr.1 with
                status := "Found " ++ toString qr.1.results.length ++ " results." }, qr.2)
          else
            ({ a2 with
                status := "Found " ++ toString a2.results.length ++ " results." }, [])
      | .error err => ({ app with searching := false, status := err }, [])
  | .thumbnail index r =>
      match app.results.get? index with
      | none => (app, [])
      | some v =>
          match r with
          | .ok path =>
              ({ app with
                  results := app.results.set index
                    { v with
                        thumbnail_loading := false,
                        thumbnail_size := sizeOfPath path,
                        thumbnail_path := some path },
                  status := "Thumbnail ready." }, [])
          | .error err =>
              ({ app with
                  results := app.results.set index { v with thumbnail_loading := false },
                  status := err }, [])

/-- `render_thumbnail`: emits the image (the returned `Bool`) unless the
candidate fingerprint matches the stored one; clears the fingerprint
whenever no thumbnail is eligible for this frame. -/
def renderThumbnail (app : App) : App × Bool :=
  match app.thumb_area with
  | none => ({ app with last_thumb := none }, false)
  | some area =>
      match app.results.get? app.selected with
      | none => ({ app with last_thumb := none }, false)
      | some v =>
          match v.thumbnail_path with
          | none => ({ app with last_thumb := none }, false)
          | some path =>
              match app.last_thumb with
              | some last =>
                  if last.path = path ∧ last.area = area then (app, false)
                  else ({ app with last_thumb := some ⟨path, area⟩ }, true)
              | none => ({ app with last_thumb := some ⟨path, area⟩ }, true)

/-! ## System-level step relation

Spawned workers are fire-and-forget and report through the channel; the
ledger `inflightSearch` / `inflightThumbs` counts spawned,
not-yet-delivered tasks (a thumbnail task is remembered by the index it
was spawned for).  A message can only be delivered if a matching worker
is in flight; the payload itself is chosen by the environment (network,
scheduling), so delivery actions quantify over it. -/

inductive Action
  | key (k : KeyCode)
  | deliverSearch (r : Except String (List Video))
  | deliverThumb (i : Nat) (r : Except String String)

structure Sys where
  app : App
  inflightSearch : Nat
  inflightThumbs : List Nat
  deriving DecidableEq, Repr

def addTask (s : Sys) (t : Task) : Sys :=
  match t with
  | .search _ => { s with inflightSearch := s.inflightSearch + 1 }
  | .thumb i _ => { s with inflightThumbs := s.inflightThumbs ++ [i] }

def addTasks (s : Sys) (ts : List Task) : Sys := ts.foldl addTask s

def sysStep (f : String → Option (Nat × Nat)) (s : Sys) (a : Action) : Option Sys :=
  match a with
  | .key k =>
      match handleKey s.app k with
      | none => none
      | some out => some (addTasks { s with app := out.1 } out.2.2)
  | .deliverSearch r =>
      if s.inflightSearch = 0 then none
      else
        some (addTasks
          { s with
              app := (handleMsg f s.app (AppMsg.search r)).1,
              inflightSearch := s.inflightSearch - 1 }
          (handleMsg f s.app (AppMsg.search r)).2)
  | .deliverThumb i r =>
      if i ∈ s.inflightThumbs then
        some (addTasks
          { s with
              app := (handleMsg f s.app (AppMsg.thumbnail i r)).1,
              inflightThumbs := s.inflightThumbs.erase i }
          (handleMsg f s.app (AppMsg.thumbnail i r)).2)
      else none

def sysRun (f : String → Option (Nat × Nat)) (s : Sys) (acts : List Action) : Option Sys :=
  acts.foldlM (sysStep f) s

/-! ## The `ApplicationState` invariant (spec section 3) -/

/-- Selected index is valid whenever the result list is non-empty. -/
def SelInv (a : App) : Prop := a.results ≠ [] → a.selected < a.results.length

/-- Focus is on the query entry whenever the result list is empty. -/
def FocusInv (a : App) : Prop := a.results = [] → a.focus = Focus.search

/-- At most one search is in flight, and the `searching` flag tracks it. -/
def SearchInv (s : Sys) : Prop :=
  s.inflightSearch ≤ 1 ∧ (s.app.searching = true ↔ s.inflightSearch = 1)

def StateInv (s : Sys) : Prop := SelInv s.app ∧ FocusInv s.app ∧ SearchInv s

/-- The exceptional message of C1: a successful search that returned an
empty list. -/
def isOkEmptySearch : Action → Prop
  | .deliverSearch (.ok []) => True
  | _ => False

lemma set_eq_nil_of {α : Type} {l : List α} {i : Nat} {x : α}
    (h : l.set i x = []) : l = [] := by
  cases l with
  | nil => rfl
  | cons a as => cases i <;> simp [List.set] at h

lemma set_ne_nil_of {α : Type} {l : List α} {i : Nat} {x : α}
    (h : l.set i x ≠ []) : l ≠ [] := by
  intro hnil
  subst hnil
  simp at h

/-- `queue_thumbnail` either leaves the app untouched and spawns nothing,
or marks exactly the requested index loading and spawns one fetch. -/
lemma queueThumbnail_split (A : App) (j : Nat) :
    queueThumbnail A j = (A, []) ∨
    (∃ v url, A.results.get? j = some v ∧ v.thumbnail_url = some url ∧
      v.thumbnail_path = none ∧ v.thumbnail_loading = false ∧
      queueThumbnail A j =
        ({ A with results := A.results.set j { v with thumbnail_loading := true } },
         [Task.thumb j url])) := by
  unfold queueThumbnail
  split
  · exact Or.inl rfl
  case h_2 v hv =>
    split
    case isTrue hcond =>
      split
      case h_1 url hurl => exact Or.inr ⟨v, url, hv, hurl, hcond.1, hcond.2, rfl⟩
      case h_2 hurl => exact Or.inl rfl
    case isFalse => exact Or.inl rfl

lemma addTasks_nil (s : Sys) : addTasks s [] = s := rfl

lemma addTasks_one_search (s : Sys) (q : List Char) :
    addTasks s [Task.search q] = { s with inflightSearch := s.inflightSearch + 1 } := rfl

lemma addTasks_one_thumb (s : Sys) (i : Nat) (u : String) :
    addTasks s [Task.thumb i u] = { s with inflightThumbs := s.inflightThumbs ++ [i] } := rfl

/-- Preservation of the invariant by `queueThumbnail` followed by the
spawn bookkeeping, for any app `A` that already satisfies it. -/
lemma stateInv_queue_addTasks (s : Sys) (A : App) (j : Nat)
    (hSel : SelInv A) (hFoc : FocusInv A)
    (hSle : s.inflightSearch ≤ 1) (hSiff : A.searching = true ↔ s.inflightSearch = 1) :
    StateInv (addTasks { s with app := (queueThumbnail A j).1 } (queueThumbnail A j).2) := by
  rcases queueThumbnail_split A j with h | ⟨v, url, hv, hurl, hp, hl, h⟩
  · rw [h, addTasks_nil]
    exact ⟨hSel, hFoc, hSle, hSiff⟩
  · rw [h]
    rw [show (({ A with results := A.results.set j { v with thumbnail_loading := true } },
        [Task.thumb j url]) : App × List Task).2 = [Task.thumb j url] from rfl,
      addTasks_one_thumb]
    refine ⟨?_, ?_, hSle, hSiff⟩
    · intro hne
      have h1 := hSel (set_ne_nil_of hne)
      show A.selected < (A.results.set j { v with thumbnail_loading := true }).length
      rw [List.length_set]
      exact h1
    · intro hnil
      exact hFoc (set_eq_nil_of hnil)

/-- The in-flight key-event transitions preserve the full invariant. -/
lemma key_preserves (f : String → Option (Nat × Nat)) (s : Sys) (k : KeyCode) (s2 : Sys)
    (hSel : SelInv s.app) (hFoc : FocusInv s.app)
    (hSle : s.inflightSearch ≤ 1) (hSiff : s.app.searching = true ↔ s.inflightSearch = 1)
    (hstep : sysStep f s (Action.key k) = some s2) : StateInv s2 := by
  simp only [sysStep] at hstep
  cases hk : handleKey s.app k with
  | none => rw [hk] at hstep; exact absurd hstep (by simp)
  | some out =>
      rw [hk] at hstep
      simp only [Option.some.injEq] at hstep
      subst hstep
      obtain ⟨a2, quit, ts⟩ := out
      cases k with
      | char c =>
          simp only [handleKey] at hk
          split_ifs at hk with hq hf
          · simp only [Option.some.injEq, Prod.mk.injEq] at hk
            obtain ⟨h1, -, h3⟩ := hk
            subst h1; subst h3
            exact ⟨hSel, hFoc, hSle, hSiff⟩
          · cases hins : stringInsert s.app.query s.app.cursor c with
            | none => rw [hins] at hk; exact absurd hk (by simp)
            | some q =>
                rw [hins] at hk
                simp only [Option.some.injEq, Prod.mk.injEq] at hk
                obtain ⟨h1, -, h3⟩ := hk
                subst h1; subst h3
                exact ⟨hSel, hFoc, hSle, hSiff⟩
          · simp only [Option.some.injEq, Prod.mk.injEq] at hk
            obtain ⟨h1, -, h3⟩ := hk
            subst h1; subst h3
            exact ⟨hSel, hFoc, hSle, hSiff⟩
      | enter =>
          simp only [handleKey] at hk
          split at hk
          case h_1 hfoc =>
            split_ifs at hk with hcond
            · simp only [Option.some.injEq, Prod.mk.injEq] at hk
              obtain ⟨h1, -, h3⟩ := hk
              subst h1; subst h3
              have h0 : s.inflightSearch = 0 := by
                rcases Nat.eq_or_lt_of_le hSle with h | h
                · exfalso
                  have := hSiff.mpr h
                  rw [hcond.2] at this
                  cases this
                · omega
              rw [addTasks_one_search]
              refine ⟨hSel, hFoc, ?_, ?_⟩
              · show s.inflightSearch + 1 ≤ 1
                omega
              · show (true = true) ↔ s.inflightSearch + 1 = 1
                simp
                omega
            · simp only [Option.some.injEq, Prod.mk.injEq] at hk
              obtain ⟨h1, -, h3⟩ := hk
              subst h1; subst h3
              exact ⟨hSel, hFoc, hSle, hSiff⟩
          case h_2 hfoc =>
            split at hk
            case h_1 v hv =>
                simp only [Option.some.injEq, Prod.mk.injEq] at hk
                obtain ⟨h1, -, h3⟩ := hk
                subst h1; subst h3
                exact ⟨hSel, hFoc, hSle, hSiff⟩
            case h_2 hv =>
                simp only [Option.some.injEq, Prod.mk.injEq] at hk
                obtain ⟨h1, -, h3⟩ := hk
                subst h1; subst h3
                exact ⟨hSel, hFoc, hSle, hSiff⟩
      | up =>
          simp only [handleKey] at hk
          split_ifs at hk with hfocr hselpos
          · simp only [Option.some.injEq, Prod.mk.injEq] at hk
            obtain ⟨h1, -, h3⟩ := hk
            subst h1; subst h3
            apply stateInv_queue_addTasks
            · intro hne
              have h1 := hSel hne
              show s.app.selected - 1 < s.app.results.length
              omega
            · intro hnil
              exact hFoc hnil
            · exact hSle
            · exact hSiff
          · simp only [Option.some.injEq, Prod.mk.injEq] at hk
            obtain ⟨h1, -, h3⟩ := hk
            subst h1; subst h3
            refine ⟨hSel, ?_, hSle, hSiff⟩
            intro _
            rfl
          · simp only [Option.some.injEq, Prod.mk.injEq] at hk
            obtain ⟨h1, -, h3⟩ := hk
            subst h1; subst h3
            exact ⟨hSel, hFoc, hSle, hSiff⟩
      | down =>
          simp only [handleKey] at hk
          split at hk
          case h_1 hfoc =>
            split_ifs at hk with hne
            · simp only [Option.some.injEq, Prod.mk.injEq] at hk
              obtain ⟨h1, -, h3⟩ := hk
              subst h1; subst h3
              apply stateInv_queue_addTasks
              · intro h
                exact hSel h
              · intro hnil
                exact absurd hnil hne
              · exact hSle
              · exact hSiff
            · simp only [Option.some.injEq, Prod.mk.injEq] at hk
              obtain ⟨h1, -, h3⟩ := hk
              subst h1; subst h3
              exact ⟨hSel, hFoc, hSle, hSiff⟩
          case h_2 hfoc =>
            split_ifs at hk with hlt
            · simp only [Option.some.injEq, Prod.mk.injEq] at hk
              obtain ⟨h1, -, h3⟩ := hk
              subst h1; subst h3
              apply stateInv_queue_addTasks
              · intro _
                show s.app.selected + 1 < s.app.results.length
                exact hlt
              · intro hnil
                exact hFoc hnil
              · exact hSle
              · exact hSiff
            · simp only [Option.some.injEq, Prod.mk.injEq] at hk
              obtain ⟨h1, -, h3⟩ := hk
              subst h1; subst h3
              exact ⟨hSel, hFoc, hSle, hSiff⟩
      | backspace =>
          simp only [handleKey] at hk
          split_ifs at hk with hf hc
          · cases hrem : stringRemove s.app.query (s.app.cursor - 1) with
            | none => rw [hrem] at hk; exact absurd hk (by simp)
            | some q =>
                rw [hrem] at hk
                simp only [Option.some.injEq, Prod.mk.injEq] at hk
                obtain ⟨h1, -, h3⟩ := hk
                subst h1; subst h3
                exact ⟨hSel, hFoc, hSle, hSiff⟩
          · simp only [Option.some.injEq, Prod.mk.injEq] at hk
            obtain ⟨h1, -, h3⟩ := hk
            subst h1; subst h3
            exact ⟨hSel, hFoc, hSle, hSiff⟩
          · simp only [Option.some.injEq, Prod.mk.injEq] at hk
            obtain ⟨h1, -, h3⟩ := hk
            subst h1; subst h3
            exact ⟨hSel, hFoc, hSle, hSiff⟩
      | left =>
          simp only [handleKey] at hk
          split_ifs at hk with h <;>
            (simp only [Option.some.injEq, Prod.mk.injEq] at hk
             obtain ⟨h1, -, h3⟩ := hk
             subst h1; subst h3
             exact ⟨hSel, hFoc, hSle, hSiff⟩)
      | right =>
          simp only [handleKey] at hk
          split_ifs at hk with h <;>
            (simp only [Option.some.injEq, Prod.mk.injEq] at hk
             obtain ⟨h1, -, h3⟩ := hk
             subst h1; subst h3
             exact ⟨hSel, hFoc, hSle, hSiff⟩)
      | other =>
          simp only [handleKey] at hk
          simp only [Option.some.injEq, Prod.mk.injEq] at hk
          obtain ⟨h1, -, h3⟩ := hk
          subst h1; subst h3
          exact ⟨hSel, hFoc, hSle, hSiff⟩

/-- Drained `SearchResult` messages preserve the invariant, except that
an `Ok` empty list delivered while the focus is on the result pane
breaks the focus clause (the code never moves focus back). -/
lemma deliverSearch_preserves (f : String → Option (Nat × Nat)) (s : Sys)
    (r : Except String (List Video)) (s2 : Sys)
    (hSel : SelInv s.app) (hFoc : FocusInv s.app)
    (hSle : s.inflightSearch ≤ 1) (hSiff : s.app.searching = true ↔ s.inflightSearch = 1)
    (hstep : sysStep f s (Action.deliverSearch r) = some s2) :
    SelInv s2.app ∧ SearchInv s2 ∧
      ((isOkEmptySearch (Action.deliverSearch r) → s.app.focus = Focus.search) →
        FocusInv s2.app) := by
  simp only [sysStep] at hstep
  split_ifs at hstep with h0
  simp only [Option.some.injEq] at hstep
  subst hstep
  cases r with
  | error e =>
      have hred : handleMsg f s.app (AppMsg.search (Except.error e)) =
          ({ s.app with
              searching := false,
              status := e }, []) := rfl
      rw [hred]
      rw [show (({ s.app with
          searching := false,
          status := e } : App), ([] : List Task)).2 = [] from rfl, addTasks_nil]
      refine ⟨hSel, ⟨?_, ?_⟩, fun _ => hFoc⟩
      · show s.inflightSearch - 1 ≤ 1
        omega
      · show (false = true) ↔ s.inflightSearch - 1 = 1
        simp only [Bool.false_eq_true, false_iff]
        omega
  | ok l =>
      cases l with
      | nil =>
          have hred : handleMsg f s.app (AppMsg.search (Except.ok [])) =
              ({ s.app with
                  searching := false,
                  results := [],
                  selected := 0,
                  status := "Found " ++ toString (0 : Nat) ++ " results." }, []) := rfl
          rw [hred]
          rw [show (({ s.app with
              searching := false,
              results := [],
              selected := 0,
              status := "Found " ++ toString (0 : Nat) ++ " results." } : App),
              ([] : List Task)).2 = [] from rfl, addTasks_nil]
          refine ⟨?_, ⟨?_, ?_⟩, ?_⟩
          · intro hne
            exact absurd rfl hne
          · show s.inflightSearch - 1 ≤ 1
            omega
          · show (false = true) ↔ s.inflightSearch - 1 = 1
            simp only [Bool.false_eq_true, false_iff]
            omega
          · intro hyp
            intro _
            exact hyp True.intro
      | cons x xs =>
          have hred : handleMsg f s.app (AppMsg.search (Except.ok (x :: xs))) =
              ({ (queueThumbnail
                    { s.app with
                        searching := false,
                        results := x :: xs,
                        selected := 0,
                        focus := Focus.results } 0).1 with
                  status := "Found " ++
                    toString (queueThumbnail
                      { s.app with
                          searching := false,
                          results := x :: xs,
                          selected := 0,
                          focus := Focus.results } 0).1.results.length ++
                    " results." },
               (queueThumbnail
                  { s.app with
                      searching := false,
                      results := x :: xs,
                      selected := 0,
                      focus := Focus.results } 0).2) := rfl
          rw [hred]
          rcases queueThumbnail_split
              { s.app with
                  searching := false,
                  results := x :: xs,
                  selected := 0,
                  focus := Focus.results } 0 with h | ⟨v, url, hv, hurl, hp, hl, h⟩
          · rw [h]
            simp only [addTasks, List.foldl]
            refine ⟨?_, ⟨?_, ?_⟩, ?_⟩
            · intro _
              show (0 : Nat) < (x :: xs).length
              simp
            · show s.inflightSearch - 1 ≤ 1
              omega
            · show (false = true) ↔ s.inflightSearch - 1 = 1
              simp only [Bool.false_eq_true, false_iff]
              omega
            · intro _
              intro hnil
              exact absurd hnil (List.cons_ne_nil x xs)
          · rw [h]
            simp only [addTasks, List.foldl, addTask]
            refine ⟨?_, ⟨?_, ?_⟩, ?_⟩
            · intro _
              simp [List.length_set]
            · show s.inflightSearch - 1 ≤ 1
              omega
            · show (false = true) ↔ s.inflightSearch - 1 = 1
              simp only [Bool.false_eq_true, false_iff]
              omega
            · intro _
              intro hnil
              exact absurd (set_eq_nil_of hnil) (List.cons_ne_nil x xs)

/-- Drained `ThumbnailResult` messages preserve the full invariant. -/
lemma deliverThumb_preserves (f : String → Option (Nat × Nat)) (s : Sys)
    (i : Nat) (r : Except String String) (s2 : Sys)
    (hSel : SelInv s.app) (hFoc : FocusInv s.app)
    (hSle : s.inflightSearch ≤ 1) (hSiff : s.app.searching = true ↔ s.inflightSearch = 1)
    (hstep : sysStep f s (Action.deliverThumb i r) = some s2) : StateInv s2 := by
  simp only [sysStep] at hstep
  split_ifs at hstep with hmem
  simp only [Option.some.injEq] at hstep
  subst hstep
  cases hv : s.app.results.get? i with
  | none =>
      have hred : handleMsg f s.app (AppMsg.thumbnail i r) = (s.app, []) := by
        rw [handleMsg]
        rw [hv]
      rw [hred]
      rw [show ((s.app, ([] : List Task)).2) = [] from rfl, addTasks_nil]
      exact ⟨hSel, hFoc, hSle, hSiff⟩
  | some v =>
      cases r with
      | ok p =>
          have hred : handleMsg f s.app (AppMsg.thumbnail i (Except.ok p)) =
              ({ s.app with
                  results := s.app.results.set i
                    { v with
                        thumbnail_loading := false,
                        thumbnail_size := f p,
                        thumbnail_path := some p },
                  status := "Thumbnail ready." }, []) := by
            rw [handleMsg]
            rw [hv]
          rw [hred]
          rw [show (({ s.app with
              results := s.app.results.set i
                { v with
                    thumbnail_loading := false,
                    thumbnail_size := f p,
                    thumbnail_path := some p },
              status := "Thumbnail ready." } : App), ([] : List Task)).2 = [] from rfl,
            addTasks_nil]
          refine ⟨?_, ?_, hSle, hSiff⟩
          · intro hne
            have h1 := hSel (set_ne_nil_of hne)
            show s.app.selected < (s.app.results.set i
              { v with
                  thumbnail_loading := false,
                  thumbnail_size := f p,
                  thumbnail_path := some p }).length
            rw [List.length_set]
            exact h1
          · intro hnil
            exact hFoc (set_eq_nil_of hnil)
      | error e =>
          have hred : handleMsg f s.app (AppMsg.thumbnail i (Except.error e)) =
              ({ s.app with
                  results := s.app.results.set i { v with thumbnail_loading := false },
                  status := e }, []) := by
            rw [handleMsg]
            rw [hv]
          rw [hred]
          rw [show (({ s.app with
              results := s.app.results.set i { v with thumbnail_loading := false },
              status := e } : App), ([] : List Task)).2 = [] from rfl,
            addTasks_nil]
          refine ⟨?_, ?_, hSle, hSiff⟩
          · intro hne
            have h1 := hSel (set_ne_nil_of hne)
            show s.app.selected < (s.app.results.set i
              { v with thumbnail_loading := false }).length
            rw [List.length_set]
            exact h1
          · intro hnil
            exact hFoc (set_eq_nil_of hnil)
/-- C1 (corrected): every key-event transition and every drained
thumbnail message preserves the full `ApplicationState` invariant, and
every drained search message preserves the selected-index clause and the
single-search clause; the focus clause survives a search message only
when the message is not `Ok(empty list)` or the focus already was on the
query entry — an `Ok(empty)` arriving while focus is `ResultBrowsing`
leaves focus on `ResultBrowsing` with an empty list. -/
theorem coordinator_invariant_preservation
    (f : String → Option (Nat × Nat)) (s : Sys) (a : Action) (s2 : Sys)
    (hInv : StateInv s) (hstep : sysStep f s a = some s2) :
    SelInv s2.app ∧ SearchInv s2 ∧
      ((isOkEmptySearch a → s.app.focus = Focus.search) → FocusInv s2.app) := by
  obtain ⟨hSel, hFoc, hSle, hSiff⟩ := hInv
  cases a with
  | key k =>
      have h := key_preserves f s k s2 hSel hFoc hSle hSiff hstep
      exact ⟨h.1, h.2.2, fun _ => h.2.1⟩
  | deliverSearch r =>
      exact deliverSearch_preserves f s r s2 hSel hFoc hSle hSiff hstep
  | deliverThumb i r =>
      have h := deliverThumb_preserves f s i r s2 hSel hFoc hSle hSiff hstep
      exact ⟨h.1, h.2.2, fun _ => h.2.1⟩

/-- A size oracle that never decodes dimensions. -/
def szNone : String → Option (Nat × Nat) := fun _ => none

/-- A result with a thumbnail URL and untouched mutable fields. -/
def vidA : Video :=
  { title := "A"
    url := "uA"
    channel := none
    duration := none
    view_count := none
    publish_date := none
    publish_date_txt := none
    thumbnail_url := some "tA"
    thumbnail_path := none
    thumbnail_size := none
    thumbnail_loading := false }

/-- A state browsing one result while a second search is in flight. -/
def appFocusResults : App :=
  { query := ['a']
    cursor := 1
    results := [vidA]
    selected := 0
    status := ""
    searching := true
    focus := Focus.results
    thumb_area := none
    last_thumb := none }

def sysFocusResults : Sys :=
  { app := appFocusResults, inflightSearch := 1, inflightThumbs := [] }

def sysAfterEmptySearch : Sys :=
  { app :=
      { appFocusResults with
          searching := false
          results := []
          selected := 0
          status := "Found 0 results." }
    inflightSearch := 0
    inflightThumbs := [] }

/-- C1 counterexample: from an invariant-satisfying state with focus on
the result pane and a search in flight, delivering `SearchResult(Ok [])`
yields an empty result list with focus still on `ResultBrowsing`: the
focus clause of the invariant is not preserved. -/
theorem search_empty_breaks_focus_invariant :
    StateInv sysFocusResults ∧
    sysStep szNone sysFocusResults (Action.deliverSearch (Except.ok [])) =
      some sysAfterEmptySearch ∧
    sysAfterEmptySearch.app.results = [] ∧
    sysAfterEmptySearch.app.focus = Focus.results ∧
    ¬ StateInv sysAfterEmptySearch := by
  refine ⟨?_, by decide, by decide, by decide, ?_⟩
  · unfold StateInv SelInv FocusInv SearchInv
    decide
  · unfold StateInv SelInv FocusInv SearchInv
    decide

/-- The startup state of `main`. -/
def appInit : App :=
  { query := []
    cursor := 0
    results := []
    selected := 0
    status := "Type a query and press Enter."
    searching := false
    focus := Focus.search
    thumb_area := none
    last_thumb := none }

def sysInit : Sys := { app := appInit, inflightSearch := 0, inflightThumbs := [] }

/-- Witness for C1: the preserved clauses evaluated on a Left key press
in the startup state. -/
theorem coordinator_invariant_witness :
    SelInv sysInit.app ∧ SearchInv sysInit ∧
      ((isOkEmptySearch (Action.key KeyCode.left) → sysInit.app.focus = Focus.search) →
        FocusInv sysInit.app) :=
  coordinator_invariant_preservation szNone sysInit (Action.key KeyCode.left) sysInit
    (by unfold StateInv SelInv FocusInv SearchInv; decide) rfl

/-- C2 (corrected): a `ThumbnailResult` whose index is out of range of
the current result list is a complete no-op (no state change, no task,
no panic); but an in-range stale result IS applied — with no generation
check, `Ok(path)` always writes the path, decoded size and cleared
in-flight flag into the result at that index of the current (possibly
newer) list. -/
theorem thumbnail_stale_handling
    (f : String → Option (Nat × Nat)) (a : App) (i : Nat) (r : Except String String)
    (p : String) (v : Video) :
    (a.results.length ≤ i → handleMsg f a (AppMsg.thumbnail i r) = (a, [])) ∧
    (a.results.get? i = some v →
      (handleMsg f a (AppMsg.thumbnail i (Except.ok p))).1.results.get? i =
        some { v with
                 thumbnail_loading := false,
                 thumbnail_size := f p,
                 thumbnail_path := some p }) := by
  constructor
  · intro hlen
    have hv : a.results.get? i = none := List.get?_eq_none.mpr hlen
    rw [handleMsg, hv]
  · intro hv
    have hi : i < a.results.length := by
      by_contra hcon
      rw [List.get?_eq_none.mpr (by omega)] at hv
      cases hv
    have hred : handleMsg f a (AppMsg.thumbnail i (Except.ok p)) =
        ({ a with
            results := a.results.set i
              { v with
                  thumbnail_loading := false,
                  thumbnail_size := f p,
                  thumbnail_path := some p },
            status := "Thumbnail ready." }, []) := by
      rw [handleMsg]
      rw [hv]
    rw [hred]
    rw [show (({ a with
        results := a.results.set i
          { v with
              thumbnail_loading := false,
              thumbnail_size := f p,
              thumbnail_path := some p },
        status := "Thumbnail ready." } : App), ([] : List Task)).1.results =
      a.results.set i
        { v with
            thumbnail_loading := false,
            thumbnail_size := f p,
            thumbnail_path := some p } from rfl]
    rw [List.get?_eq_getElem?]
    exact List.getElem?_set_eq_of_lt _ hi

/-- A second search result, as produced by a search worker: mutable
fields fresh. -/
def vidB : Video :=
  { vidA with
      title := "B",
      url := "uB",
      thumbnail_url := some "tB" }

/-- A state holding one result, focus on the query entry, idle. -/
def appOneResult : App :=
  { query := ['a']
    cursor := 1
    results := [vidA]
    selected := 0
    status := ""
    searching := false
    focus := Focus.search
    thumb_area := none
    last_thumb := none }

def sysOneResult : Sys :=
  { app := appOneResult, inflightSearch := 0, inflightThumbs := [] }

/-- Down spawns a thumbnail fetch for index 0 of the old list; Up and
Enter start a second search; its result replaces the list and spawns a
new fetch for index 0; then the OLD worker's result arrives. -/
def staleTrace : List Action :=
  [Action.key KeyCode.down,
   Action.key KeyCode.up,
   Action.key KeyCode.enter,
   Action.deliverSearch (Except.ok [vidB]),
   Action.deliverThumb 0 (Except.ok "stale.img")]

/-- C2 counterexample: running `staleTrace`, the thumbnail result spawned
for the OLD result list is delivered after a newer search replaced the
list, and it modifies result 0 of the newer list (its path becomes the
stale file), contradicting "never modifies any result of the newer
list". -/
theorem stale_thumbnail_modifies_new_list :
    (sysRun szNone sysOneResult staleTrace).map
        (fun s => (s.app.results.get? 0).map Video.thumbnail_path) =
      some (some (some "stale.img")) ∧
    (sysRun szNone sysOneResult staleTrace).map (fun s => s.app.results.length) =
      some 1 := by
  constructor
  · decide
  · decide

/-- Witness for C2: the no-op discard and the in-range write evaluated
on the one-result state. -/
theorem thumbnail_stale_handling_witness :
    handleMsg szNone appOneResult (AppMsg.thumbnail 5 (Except.error "e")) =
      (appOneResult, []) ∧
    (handleMsg szNone appOneResult (AppMsg.thumbnail 0 (Except.ok "p.img"))).1.results.get? 0 =
      some { vidA with
               thumbnail_loading := false,
               thumbnail_size := szNone "p.img",
               thumbnail_path := some "p.img" } :=
  ⟨(thumbnail_stale_handling szNone appOneResult 5 (Except.error "e") "p.img" vidA).1
      (by decide),
   (thumbnail_stale_handling szNone appOneResult 0 (Except.error "e") "p.img" vidA).2
      (by decide)⟩

/-- C7 (corrected): while a search is in flight, Enter in the query
entry spawns nothing and changes nothing; and requesting a thumbnail for
an index whose result already has a cached path or a set in-flight flag
spawns nothing and changes nothing.  (This bounds fetches to one per
index only within one result list: a new search installs fresh flags, so
a fetch for an index can be spawned while a stale one for the same index
is still outstanding — see the counterexample.) -/
theorem admission_control (a : App) (i : Nat) (v : Video) :
    (a.focus = Focus.search → a.searching = true →
      handleKey a KeyCode.enter = some (a, false, [])) ∧
    (a.results.get? i = some v →
      (v.thumbnail_path ≠ none ∨ v.thumbnail_loading = true) →
      queueThumbnail a i = (a, [])) := by
  constructor
  · intro hfoc hsearch
    simp [handleKey, hfoc, hsearch]
  · intro hv hguard
    rcases queueThumbnail_split a i with h | ⟨v2, url, hv2, hurl, hp, hl, h⟩
    · exact h
    · rw [hv] at hv2
      obtain rfl : v = v2 := by
        cases hv2
        rfl
      rcases hguard with hg | hg
      · exact absurd hp hg
      · rw [hl] at hg
        cases hg

/-- The four-step prefix of `staleTrace`: after the new list arrives,
two thumbnail fetches for index 0 are outstanding at once. -/
def doubleSpawnTrace : List Action :=
  [Action.key KeyCode.down,
   Action.key KeyCode.up,
   Action.key KeyCode.enter,
   Action.deliverSearch (Except.ok [vidB])]

/-- C7 counterexample: after `doubleSpawnTrace`, the in-flight ledger
holds TWO thumbnail tasks for result index 0 (one spawned on the old
list, one on the new), contradicting "at most one thumbnail fetch per
result index is ever outstanding". -/
theorem two_thumbnail_tasks_one_index :
    (sysRun szNone sysOneResult doubleSpawnTrace).map
        (fun s => s.inflightThumbs.count 0) = some 2 := by
  decide

/-- A state whose only result has its thumbnail fetch in flight. -/
def vidLoading : Video := { vidA with thumbnail_loading := true }

def appLoading : App := { appOneResult with results := [vidLoading] }

/-- Witness for C7: the Enter guard on a searching state and the
queue guard on an already-loading result. -/
theorem admission_control_witness :
    handleKey { appOneResult with searching := true } KeyCode.enter =
      some ({ appOneResult with searching := true }, false, []) ∧
    queueThumbnail appLoading 0 = (appLoading, []) :=
  ⟨(admission_control { appOneResult with searching := true } 0 vidA).1 rfl rfl,
   (admission_control appLoading 0 vidLoading).2 (by decide) (Or.inr rfl)⟩

/-- If a result has no path, is not loading, and has a URL, the queue
call does spawn, marking the index loading. -/
lemma queueThumbnail_spawns (A : App) (j : Nat) (v : Video) (u : String)
    (hv : A.results.get? j = some v) (hp : v.thumbnail_path = none)
    (hl : v.thumbnail_loading = false) (hu : v.thumbnail_url = some u) :
    queueThumbnail A j =
      ({ A with results := A.results.set j { v with thumbnail_loading := true } },
       [Task.thumb j u]) := by
  rw [queueThumbnail]
  split
  case h_1 heq =>
      rw [hv] at heq
      exact Option.noConfusion heq
  case h_2 v2 heq =>
      rw [hv] at heq
      injection heq with h2
      subst h2
      rw [if_pos ⟨hp, hl⟩]
      split
      case h_1 u2 hequ =>
          rw [hu] at hequ
          injection hequ with h3
          subst h3
          rfl
      case h_2 hequ =>
          rw [hu] at hequ
          exact Option.noConfusion hequ

/-- C8 (confirmed): handling `SearchResult(Ok l)` clears the in-flight
flag, resets the selection to 0, installs `l` as the result list (index
0 additionally gets its loading flag set when a fetch is triggered for
it), moves focus to the result pane when `l` is non-empty, and spawns
the thumbnail fetch for index 0 when that result is fresh and has a URL;
`SearchResult(Err e)` clears the flag, sets the status to `e` and leaves
the result list untouched. -/
theorem search_result_handling
    (f : String → Option (Nat × Nat)) (s : App) (l : List Video) (e : String) :
    ((handleMsg f s (AppMsg.search (Except.ok l))).1.searching = false) ∧
    ((handleMsg f s (AppMsg.search (Except.ok l))).1.selected = 0) ∧
    ((handleMsg f s (AppMsg.search (Except.ok l))).1.results.length = l.length) ∧
    (∀ j, j ≠ 0 →
      (handleMsg f s (AppMsg.search (Except.ok l))).1.results.get? j = l.get? j) ∧
    (l ≠ [] → (handleMsg f s (AppMsg.search (Except.ok l))).1.focus = Focus.results) ∧
    (∀ v, l.get? 0 = some v →
      (handleMsg f s (AppMsg.search (Except.ok l))).1.results.get? 0 = some v ∨
      (handleMsg f s (AppMsg.search (Except.ok l))).1.results.get? 0 =
        some { v with thumbnail_loading := true }) ∧
    (∀ v u, l.get? 0 = some v → v.thumbnail_path = none → v.thumbnail_loading = false →
      v.thumbnail_url = some u →
      (handleMsg f s (AppMsg.search (Except.ok l))).2 = [Task.thumb 0 u]) ∧
    (handleMsg f s (AppMsg.search (Except.error e)) =
      ({ s with searching := false, status := e }, [])) := by
  have herr : handleMsg f s (AppMsg.search (Except.error e)) =
      ({ s with searching := false, status := e }, []) := rfl
  cases l with
  | nil =>
      refine ⟨rfl, rfl, rfl, fun j _ => rfl, fun h => absurd rfl h, ?_, ?_, herr⟩
      · intro v hv
        exact Option.noConfusion hv
      · intro v u hv _ _ _
        exact Option.noConfusion hv
  | cons x xs =>
      have hred : handleMsg f s (AppMsg.search (Except.ok (x :: xs))) =
          ({ (queueThumbnail
                { s with
                    searching := false,
                    results := x :: xs,
                    selected := 0,
                    focus := Focus.results } 0).1 with
              status := "Found " ++
                toString (queueThumbnail
                  { s with
                      searching := false,
                      results := x :: xs,
                      selected := 0,
                      focus := Focus.results } 0).1.results.length ++
                " results." },
           (queueThumbnail
              { s with
                  searching := false,
                  results := x :: xs,
                  selected := 0,
                  focus := Focus.results } 0).2) := rfl
      rw [hred]
      rcases queueThumbnail_split
          { s with
              searching := false,
              results := x :: xs,
              selected := 0,
              focus := Focus.results } 0 with h | ⟨v2, url, hv2, hurl, hp2, hl2, h⟩
      · rw [h]
        refine ⟨rfl, rfl, rfl, fun j _ => rfl, fun _ => rfl, ?_, ?_, herr⟩
        · intro v hv
          exact Or.inl hv
        · intro v u hv hp hl hu
          exfalso
          have hv0 : x = v := by
            have hxv : some x = some v := hv
            exact (Option.some.injEq x v).mp hxv
          subst hv0
          have hsp := queueThumbnail_spawns
            { s with
                searching := false,
                results := x :: xs,
                selected := 0,
                focus := Focus.results } 0 x u rfl hp hl hu
          rw [h] at hsp
          have h2 := congrArg Prod.snd hsp
          simp at h2
      · have hx : x = v2 := by
          have hxv : some x = some v2 := hv2
          exact (Option.some.injEq x v2).mp hxv
        subst hx
        rw [h]
        refine ⟨rfl, rfl, ?_, ?_, fun _ => rfl, ?_, ?_, herr⟩
        · show ((x :: xs).set 0 { x with thumbnail_loading := true }).length = _
          rw [List.length_set]
        · intro j hj
          show ((x :: xs).set 0 { x with thumbnail_loading := true }).get? j = _
          simp only [List.get?_eq_getElem?]
          rw [List.getElem?_set_ne (Ne.symm hj)]
        · intro v hv
          have hv0 : x = v := by
            have hxv : some x = some v := hv
            exact (Option.some.injEq x v).mp hxv
          subst hv0
          right
          show ((x :: xs).set 0 { x with thumbnail_loading := true }).get? 0 = _
          simp only [List.get?_eq_getElem?]
          exact List.getElem?_set_eq_of_lt _ (by simp)
        · intro v u hv hp hl hu
          have hv0 : x = v := by
            have hxv : some x = some v := hv
            exact (Option.some.injEq x v).mp hxv
          subst hv0
          rw [hu] at hurl
          injection hurl with h3
          subst h3
          rfl

/-- Witness for C8: a search returning `[vidA]` delivered to the startup
state installs the list, selects index 0, moves focus to the result pane
and spawns the fetch for index 0. -/
theorem search_result_handling_witness :
    ((handleMsg szNone appInit (AppMsg.search (Except.ok [vidA]))).1.searching = false) ∧
    ([vidA] ≠ [] →
      (handleMsg szNone appInit (AppMsg.search (Except.ok [vidA]))).1.focus = Focus.results) ∧
    ((handleMsg szNone appInit (AppMsg.search (Except.ok [vidA]))).2 = [Task.thumb 0 "tA"]) ∧
    (handleMsg szNone appInit (AppMsg.search (Except.error "boom")) =
      ({ appInit with searching := false, status := "boom" }, [])) := by
  have h := search_result_handling szNone appInit [vidA] "boom"
  exact ⟨h.1, h.2.2.2.2.1, h.2.2.2.2.2.2.1 vidA "tA" rfl rfl rfl rfl, h.2.2.2.2.2.2.2⟩

/-- On an eligible frame (area present, selected result exists and has a
cached path) `render_thumbnail` reduces to the fingerprint comparison. -/
lemma renderThumbnail_eligible (a : App) (area : Rect) (v : Video) (p : String)
    (h1 : a.thumb_area = some area) (h2 : a.results.get? a.selected = some v)
    (h3 : v.thumbnail_path = some p) :
    renderThumbnail a =
      match a.last_thumb with
      | some last =>
          if last.path = p ∧ last.area = area then (a, false)
          else ({ a with last_thumb := some ⟨p, area⟩ }, true)
      | none => ({ a with last_thumb := some ⟨p, area⟩ }, true) := by
  rw [renderThumbnail]
  split
  case h_1 heq =>
      rw [h1] at heq
      exact Option.noConfusion heq
  case h_2 area2 heq =>
      rw [h1] at heq
      injection heq with h4
      subst h4
      split
      case h_1 hv =>
          rw [h2] at hv
          exact Option.noConfusion hv
      case h_2 v2 hv =>
          rw [h2] at hv
          injection hv with h5
          subst h5
          split
          case h_1 hp =>
              rw [h3] at hp
              exact Option.noConfusion hp
          case h_2 p2 hp =>
              rw [h3] at hp
              injection hp with h6
              subst h6
              rfl

/-- After an eligible frame the stored fingerprint equals the candidate
and the inputs of the comparison are unchanged. -/
lemma renderThumbnail_post (a : App) (area : Rect) (v : Video) (p : String)
    (h1 : a.thumb_area = some area) (h2 : a.results.get? a.selected = some v)
    (h3 : v.thumbnail_path = some p) :
    (renderThumbnail a).1.thumb_area = a.thumb_area ∧
    (renderThumbnail a).1.results = a.results ∧
    (renderThumbnail a).1.selected = a.selected ∧
    (renderThumbnail a).1.last_thumb = some ⟨p, area⟩ := by
  rw [renderThumbnail_eligible a area v p h1 h2 h3]
  cases hlast : a.last_thumb with
  | none => exact ⟨rfl, rfl, rfl, rfl⟩
  | some lt =>
      dsimp only
      by_cases hc : lt.path = p ∧ lt.area = area
      · rw [if_pos hc]
        refine ⟨rfl, rfl, rfl, ?_⟩
        show a.last_thumb = some ⟨p, area⟩
        rw [hlast]
        obtain ⟨hcp, hca⟩ := hc
        cases lt
        simp only at hcp hca
        rw [hcp, hca]
      · rw [if_neg hc]
        exact ⟨rfl, rfl, rfl, rfl⟩

/-- C9 (confirmed): when a candidate (path, rectangle) fingerprint
equals the stored one the blit is skipped and the state is unchanged; a
blit happens exactly when the stored fingerprint differs; an immediate
second frame never blits again; changing the rectangle forces a new
blit; and every non-eligible frame clears the stored fingerprint, so a
later eligible frame (stored fingerprint `none`) always blits. -/
theorem render_diff_guard :
    (∀ (a : App) (area : Rect) (v : Video) (p : String),
      a.thumb_area = some area → a.results.get? a.selected = some v →
      v.thumbnail_path = some p →
        ((a.last_thumb = some ⟨p, area⟩ → renderThumbnail a = (a, false)) ∧
         ((renderThumbnail a).2 = true ↔ a.last_thumb ≠ some ⟨p, area⟩) ∧
         ((renderThumbnail (renderThumbnail a).1).2 = false) ∧
         (∀ area2 : Rect, area2 ≠ area →
            (renderThumbnail
              { (renderThumbnail a).1 with thumb_area := some area2 }).2 = true))) ∧
    (∀ a : App, a.thumb_area = none →
      renderThumbnail a = ({ a with last_thumb := none }, false)) ∧
    (∀ (a : App) (area : Rect), a.thumb_area = some area →
      a.results.get? a.selected = none →
      renderThumbnail a = ({ a with last_thumb := none }, false)) ∧
    (∀ (a : App) (area : Rect) (v : Video), a.thumb_area = some area →
      a.results.get? a.selected = some v → v.thumbnail_path = none →
      renderThumbnail a = ({ a with last_thumb := none }, false)) ∧
    (∀ (a : App) (area : Rect) (v : Video) (p : String),
      a.thumb_area = some area → a.results.get? a.selected = some v →
      v.thumbnail_path = some p → a.last_thumb = none →
      (renderThumbnail a).2 = true) := by
  have hskip : ∀ (a : App) (area : Rect) (v : Video) (p : String),
      a.thumb_area = some area → a.results.get? a.selected = some v →
      v.thumbnail_path = some p → a.last_thumb = some ⟨p, area⟩ →
      renderThumbnail a = (a, false) := by
    intro a area v p h1 h2 h3 hlast
    rw [renderThumbnail_eligible a area v p h1 h2 h3, hlast]
    dsimp only
    rw [if_pos ⟨rfl, rfl⟩]
  refine ⟨?_, ?_, ?_, ?_, ?_⟩
  · intro a area v p h1 h2 h3
    obtain ⟨hp1, hp2, hp3, hp4⟩ := renderThumbnail_post a area v p h1 h2 h3
    refine ⟨hskip a area v p h1 h2 h3, ?_, ?_, ?_⟩
    · rw [renderThumbnail_eligible a area v p h1 h2 h3]
      cases hlast : a.last_thumb with
      | none => simp
      | some lt =>
          dsimp only
          by_cases hc : lt.path = p ∧ lt.area = area
          · rw [if_pos hc]
            obtain ⟨hcp, hca⟩ := hc
            cases lt
            simp only at hcp hca
            rw [hcp, hca]
            simp
          · rw [if_neg hc]
            simp only [Option.some.injEq]
            constructor
            · intro _ heq
              apply hc
              injection heq with h7
              subst h7
              exact ⟨rfl, rfl⟩
            · intro _
              trivial
    · have h9 := hskip (renderThumbnail a).1 area v p
        (by rw [hp1]; exact h1)
        (by rw [hp2, hp3]; exact h2)
        h3
        hp4
      rw [h9]
    · intro area2 hne
      rw [renderThumbnail_eligible
          { (renderThumbnail a).1 with thumb_area := some area2 } area2 v p rfl
          (by show (renderThumbnail a).1.results.get? (renderThumbnail a).1.selected = some v
              rw [hp2, hp3]
              exact h2)
          h3]
      rw [show ({ (renderThumbnail a).1 with thumb_area := some area2 } : App).last_thumb =
        (renderThumbnail a).1.last_thumb from rfl, hp4]
      dsimp only
      rw [if_neg (by rintro ⟨-, hca⟩; exact hne hca.symm)]
  · intro a h1
    rw [renderThumbnail, h1]
  · intro a area h1 h2
    rw [renderThumbnail]
    split
    case h_1 heq => exact absurd (h1 ▸ heq) (by simp)
    case h_2 area2 heq =>
        split
        case h_1 hv => rfl
        case h_2 v2 hv =>
            rw [h2] at hv
            exact Option.noConfusion hv
  · intro a area v h1 h2 h3
    rw [renderThumbnail]
    split
    case h_1 heq => exact absurd (h1 ▸ heq) (by simp)
    case h_2 area2 heq =>
        split
        case h_1 hv =>
            rw [h2] at hv
        case h_2 v2 hv =>
            rw [h2] at hv
            injection hv with h5
            subst h5
            split
            case h_1 hp => rfl
            case h_2 p2 hp =>
                rw [h3] at hp
                exact Option.noConfusion hp
  · intro a area v p h1 h2 h3 hlast
    rw [renderThumbnail_eligible a area v p h1 h2 h3, hlast]

/-- An eligible state: one result with a cached path, a pane rectangle,
and no stored fingerprint yet. -/
def vidCached : Video := { vidA with thumbnail_path := some "tA.img" }

def rect0 : Rect := { x := 1, y := 2, width := 20, height := 8 }

def appEligible : App :=
  { appOneResult with
      results := [vidCached],
      focus := Focus.results,
      thumb_area := some rect0 }

/-- Witness for C9: from `appEligible` (no stored fingerprint) the first
frame blits, the immediate second frame does not, and an ineligible
frame clears the fingerprint. -/
theorem render_diff_guard_witness :
    ((renderThumbnail appEligible).2 = true ↔
      appEligible.last_thumb ≠ some ⟨"tA.img", rect0⟩) ∧
    ((renderThumbnail (renderThumbnail appEligible).1).2 = false) ∧
    renderThumbnail { appEligible with thumb_area := none } =
      ({ { appEligible with thumb_area := none } with last_thumb := none }, false) := by
  have h := (render_diff_guard.1 appEligible rect0 vidCached "tA.img" rfl rfl rfl)
  exact ⟨h.2.1, h.2.2.1, render_diff_guard.2.1 { appEligible with thumb_area := none } rfl⟩

/-- C10 (corrected): in `QueryEntry` focus a character key other than
`q` whose byte-index insertion succeeds is inserted and the cursor
advances by one; for an all-ASCII buffer the insertion succeeds at every
cursor position `0..=length`; but the character `q` is matched by the
quit arm first — it terminates the loop and is never inserted — and
after a multi-byte character the cursor (a character count used as a
byte index) can fall inside a character, where `String::insert` panics. -/
theorem char_input_insertion :
    (∀ (a : App) (c : Char) (q2 : List Char), c ≠ 'q' → a.focus = Focus.search →
      stringInsert a.query a.cursor c = some q2 →
      handleKey a (KeyCode.char c) =
        some ({ a with query := q2, cursor := a.cursor + 1 }, false, [])) ∧
    (∀ (q : List Char) (i : Nat) (c : Char),
      (∀ x ∈ q, charUtf8Len x = 1) → i ≤ q.length →
      stringInsert q i c = some (q.take i ++ c :: q.drop i)) ∧
    (∀ a : App, handleKey a (KeyCode.char 'q') = some (a, true, [])) ∧
    (stringInsert ['é'] 1 'x' = none) ∧
    (handleKey { appOneResult with query := ['é'], cursor := 1 } (KeyCode.char 'x') =
      none) := by
  refine ⟨?_, ?_, fun a => rfl, by decide, by decide⟩
  · intro a c q2 hq hfoc hins
    rw [handleKey]
    rw [if_neg hq, if_pos hfoc, hins]
  · intro q
    induction q with
    | nil =>
        intro i c _ hle
        have hi : i = 0 := by
          simp at hle
          omega
        subst hi
        rfl
    | cons x q ih =>
        intro i c hascii hle
        cases i with
        | zero => rfl
        | succ n =>
            have hx : charUtf8Len x = 1 := hascii x (by simp)
            show (if charUtf8Len x ≤ n + 1 then
                (stringInsert q (n + 1 - charUtf8Len x) c).map (fun l => x :: l)
              else none) = _
            rw [hx, if_pos (by omega)]
            rw [show n + 1 - 1 = n from rfl]
            rw [ih n c (fun y hy => hascii y (by simp [hy])) (by simpa using hle)]
            rfl

/-- C10 counterexample: pressing the character key `q` in `QueryEntry`
focus returns quit = `true` (the loop terminates) and leaves the query
buffer unchanged — `q` is never inserted, contradicting "every character
key input is inserted ... without terminating the loop". -/
theorem char_q_quits_instead_of_inserting :
    handleKey appInit (KeyCode.char 'q') = some (appInit, true, []) ∧
    appInit.query = [] := ⟨rfl, rfl⟩

/-- Witness for C10: typing `b` at the end of the one-character query
buffer inserts it and advances the cursor. -/
theorem char_input_insertion_witness :
    handleKey appOneResult (KeyCode.char 'b') =
      some ({ appOneResult with query := ['a', 'b'], cursor := 2 }, false, []) :=
  char_input_insertion.1 appOneResult 'b' ['a', 'b'] (by decide) rfl (by decide)

/-! ## Thumbnail cache (`download_thumbnail`, `safe_filename`,
`thumbnail_cache_dir`, main.rs lines 535-575)

The filesystem is an association list from paths to byte contents; the
per-call environment carries the cache-dir resolution (from environment
variables), the `create_dir_all` outcome, the network response and the
`fs::write` outcome.  `fs::write` writes directly to the final path, so
an interrupted write leaves a prefix of the body there. -/

/-- `safe_filename`: ASCII-alphanumerics lower-cased, everything else
replaced by `_`, truncated to 80 bytes (all mapped characters are one
byte), with the fixed `.img` extension. -/
def safeFilename (url : String) : String :=
  String.mk ((url.data.map (fun c => if c.isAlphanum then c.toLower else '_')).take 80
    ++ ".img".data)

deriving instance DecidableEq for Except

structure FS where
  files : List (String × List Nat)
  deriving DecidableEq, Repr

def fileExists (fs : FS) (p : String) : Bool := (fs.files.lookup p).isSome

def setFile (fs : FS) (p : String) (b : List Nat) : FS := ⟨(p, b) :: fs.files⟩

inductive NetResult
  | failDownload (e : String)
  | failRead (e : String)
  | ok (bytes : List Nat)
  deriving DecidableEq, Repr

inductive WriteOutcome
  | success
  | failCreate (e : String)
  | failPartial (k : Nat) (e : String)
  deriving DecidableEq, Repr

/-- Environment of one `download_thumbnail` call. -/
structure DlEnv where
  cacheDir : Except String String
  mkdir : Except String Unit
  net : NetResult
  write : WriteOutcome

/-- `fs::write` to the final path: success stores the bytes; a create
failure leaves the filesystem unchanged; an interrupted write leaves the
first `k` bytes at the path. -/
def fsWrite (fs : FS) (p : String) (bytes : List Nat) (w : WriteOutcome) :
    Except String Unit × FS :=
  match w with
  | .success => (Except.ok (), setFile fs p bytes)
  | .failCreate e => (Except.error e, fs)
  | .failPartial k e => (Except.error e, setFile fs p (bytes.take k))

structure DlResult where
  result : Except String String
  fs : FS
  downloads : Nat
  deriving DecidableEq, Repr

/-- Shallow embedding of `download_thumbnail`; `downloads` counts the
network retrievals performed. -/
def downloadThumbnail (env : DlEnv) (fs : FS) (url : String) : DlResult :=
  match env.cacheDir with
  | .error e => ⟨Except.error e, fs, 0⟩
  | .ok dir =>
      match env.mkdir with
      | .error e => ⟨Except.error ("Cache dir error: " ++ e), fs, 0⟩
      | .ok _ =>
          if fileExists fs (dir ++ "/" ++ safeFilename url) then
            ⟨Except.ok (dir ++ "/" ++ safeFilename url), fs, 0⟩
          else
            match env.net with
            | .failDownload e => ⟨Except.error ("Download error: " ++ e), fs, 1⟩
            | .failRead e => ⟨Except.error ("Read error: " ++ e), fs, 1⟩
            | .ok bytes =>
                match fsWrite fs (dir ++ "/" ++ safeFilename url) bytes env.write with
                | (.ok _, fs2) => ⟨Except.ok (dir ++ "/" ++ safeFilename url), fs2, 1⟩
                | (.error e, fs2) => ⟨Except.error ("Write error: " ++ e), fs2, 1⟩

lemma fileExists_setFile (fs : FS) (p : String) (b : List Nat) :
    fileExists (setFile fs p b) p = true := by
  simp [fileExists, setFile, List.lookup]

/-- On a cache hit the call returns the resolved path immediately: the
filesystem is unchanged and no network retrieval happens. -/
lemma downloadThumbnail_hit (env : DlEnv) (fs : FS) (url dir : String)
    (hdir : env.cacheDir = Except.ok dir) (hmk : env.mkdir = Except.ok ())
    (hex : fileExists fs (dir ++ "/" ++ safeFilename url) = true) :
    downloadThumbnail env fs url = ⟨Except.ok (dir ++ "/" ++ safeFilename url), fs, 0⟩ := by
  rw [downloadThumbnail]
  split
  case h_1 e heq =>
      rw [hdir] at heq
      exact Except.noConfusion heq
  case h_2 dir2 heq =>
      rw [hdir] at heq
      injection heq with h4
      subst h4
      split
      case h_1 e heq2 =>
          rw [hmk] at heq2
          exact Except.noConfusion heq2
      case h_2 u heq2 =>
          rw [if_pos hex]

/-- A successful call always leaves (or finds) the file at the resolved
path. -/
lemma downloadThumbnail_ok (cd : Except String String) (mk : Except String Unit)
    (net : NetResult) (wr : WriteOutcome) (fs : FS) (url p : String)
    (h : (downloadThumbnail ⟨cd, mk, net, wr⟩ fs url).result = Except.ok p) :
    ∃ dir, cd = Except.ok dir ∧ p = dir ++ "/" ++ safeFilename url ∧
      fileExists (downloadThumbnail ⟨cd, mk, net, wr⟩ fs url).fs p = true := by
  cases cd with
  | error e => exact absurd h (by simp [downloadThumbnail])
  | ok dir =>
      cases mk with
      | error e => exact absurd h (by simp [downloadThumbnail])
      | ok u =>
          simp only [downloadThumbnail] at h ⊢
          by_cases hex : fileExists fs (dir ++ "/" ++ safeFilename url) = true
          · rw [if_pos hex] at h ⊢
            simp only [Except.ok.injEq] at h
            exact ⟨dir, rfl, h.symm, by rw [← h]; exact hex⟩
          · rw [if_neg hex] at h ⊢
            cases net with
            | failDownload e => exact absurd h (by simp)
            | failRead e => exact absurd h (by simp)
            | ok bytes =>
                cases wr with
                | success =>
                    simp only [fsWrite] at h ⊢
                    simp only [Except.ok.injEq] at h
                    exact ⟨dir, rfl, h.symm, by rw [← h]; exact fileExists_setFile _ _ _⟩
                | failCreate e =>
                    simp only [fsWrite] at h
                    exact absurd h (by simp)
                | failPartial k e =>
                    simp only [fsWrite] at h
                    exact absurd h (by simp)

/-- C5 (confirmed): if a fetch of `url` succeeds with path `p`, an
immediately following fetch of the same `url` (same resolved cache
directory, directory creation succeeding) returns the same `p`
unchanged, performs zero network retrievals and leaves the filesystem
untouched; and whenever the file already exists at the resolved path,
a single fetch returns it immediately with zero retrievals. -/
theorem fetch_twice_downloads_once (e1 e2 : DlEnv) (fs : FS) (url p dir : String) :
    ((downloadThumbnail e1 fs url).result = Except.ok p →
      e2.cacheDir = e1.cacheDir → e2.mkdir = Except.ok () →
      downloadThumbnail e2 (downloadThumbnail e1 fs url).fs url =
        ⟨Except.ok p, (downloadThumbnail e1 fs url).fs, 0⟩) ∧
    (e1.cacheDir = Except.ok dir → e1.mkdir = Except.ok () →
      fileExists fs (dir ++ "/" ++ safeFilename url) = true →
      downloadThumbnail e1 fs url =
        ⟨Except.ok (dir ++ "/" ++ safeFilename url), fs, 0⟩) := by
  constructor
  · intro hok hdir2 hmk2
    obtain ⟨cd, mk, net, wr⟩ := e1
    obtain ⟨d, hcd, hp, hex⟩ := downloadThumbnail_ok cd mk net wr fs url p hok
    subst hp
    exact downloadThumbnail_hit e2 _ url d (by rw [hdir2]; exact hcd) hmk2 hex
  · intro hdir hmk hex
    exact downloadThumbnail_hit e1 fs url dir hdir hmk hex

/-- An environment whose write is interrupted after one byte. -/
def envPartialWrite : DlEnv :=
  { cacheDir := Except.ok "c"
    mkdir := Except.ok ()
    net := NetResult.ok [5, 6]
    write := WriteOutcome.failPartial 1 "disk full" }

/-- C6 counterexample: the fetch fails with a write error, yet a
partially written file (first byte only) sits at the final resolved
cache path — the code writes directly to the final path, not
write-then-rename. -/
theorem partial_write_leaves_file :
    (downloadThumbnail envPartialWrite ⟨[]⟩ "u").result =
      Except.error "Write error: disk full" ∧
    fileExists (downloadThumbnail envPartialWrite ⟨[]⟩ "u").fs
      ("c/" ++ safeFilename "u") = true ∧
    (downloadThumbnail envPartialWrite ⟨[]⟩ "u").fs.files =
      [("c/" ++ safeFilename "u", [5])] := by
  refine ⟨rfl, rfl, rfl⟩

def isErrResult : Except String String → Bool
  | .error _ => true
  | .ok _ => false

/-- C6 (corrected): when a fetch of a not-yet-cached URL fails, a file
exists at the final resolved cache path exactly when the failure was an
interrupted write — cache-dir, directory-creation, download and read
failures leave no file, but `fs::write` writes directly to the final
path, so a partial write leaves a (truncated) file there. -/
theorem fetch_error_file_iff_partial_write (env : DlEnv) (fs : FS) (url dir : String)
    (hdir : env.cacheDir = Except.ok dir)
    (hex : fileExists fs (dir ++ "/" ++ safeFilename url) = false)
    (herr : isErrResult (downloadThumbnail env fs url).result = true) :
    (fileExists (downloadThumbnail env fs url).fs (dir ++ "/" ++ safeFilename url) = true ↔
      (env.mkdir = Except.ok () ∧ (∃ b, env.net = NetResult.ok b) ∧
        (∃ k m, env.write = WriteOutcome.failPartial k m))) := by
  obtain ⟨cd, mk, net, wr⟩ := env
  simp only at hdir herr ⊢
  subst hdir
  cases mk with
  | error e =>
      simp only [downloadThumbnail]
      rw [hex]
      simp
  | ok u =>
      simp only [downloadThumbnail] at herr ⊢
      rw [if_neg (by rw [hex]; simp)] at herr ⊢
      cases net with
      | failDownload e =>
          rw [hex]
          simp
      | failRead e =>
          rw [hex]
          simp
      | ok bytes =>
          cases wr with
          | success => simp [fsWrite, isErrResult] at herr
          | failCreate e =>
              simp only [fsWrite]
              rw [hex]
              simp
          | failPartial k m =>
              simp only [fsWrite]
              rw [fileExists_setFile]
              simp

/-- An environment where the cache directory cannot be created. -/
def envMkdirFail : DlEnv :=
  { cacheDir := Except.ok "c"
    mkdir := Except.error "mk"
    net := NetResult.ok [5]
    write := WriteOutcome.success }

/-- Witness for C6: a directory-creation failure errors out and leaves
no file at the resolved path. -/
theorem fetch_error_file_iff_partial_write_witness :
    fileExists (downloadThumbnail envMkdirFail ⟨[]⟩ "u").fs
        ("c/" ++ safeFilename "u") = true ↔
      (envMkdirFail.mkdir = Except.ok () ∧ (∃ b, envMkdirFail.net = NetResult.ok b) ∧
        (∃ k m, envMkdirFail.write = WriteOutcome.failPartial k m)) :=
  fetch_error_file_iff_partial_write envMkdirFail ⟨[]⟩ "u" "c" rfl rfl rfl

/-- A filesystem already holding the cache entry for `"u"`, and an
environment whose network is down. -/
def fsWithFile : FS := ⟨[("c/" ++ safeFilename "u", [1, 2])]⟩

def envHit : DlEnv :=
  { cacheDir := Except.ok "c"
    mkdir := Except.ok ()
    net := NetResult.failDownload "offline"
    write := WriteOutcome.success }

/-- Witness for C5: with the file already cached, the fetch returns the
path with zero downloads even though the network is down. -/
theorem fetch_twice_downloads_once_witness :
    downloadThumbnail envHit fsWithFile "u" =
      ⟨Except.ok ("c/" ++ safeFilename "u"), fsWithFile, 0⟩ :=
  (fetch_twice_downloads_once envHit envHit fsWithFile "u" "x" "c").2 rfl rfl rfl

end Ytbv
